import Mathlib

/-!
Shallow embedding of the library-circulation domain of `app.py`:
catalog entries (`Book` with `Physical`/`Ebook` variants), loans, members,
librarian catalog operations, and the e-book auto-return sweep
(`LoanManager.auto_return_ebooks`).

Python object references are modelled by a heap: `Book` objects live in a
list `books : List Book`, and a loan or a catalog (inventory) entry refers
to a book by its heap index.  Dates (`datetime.date`) are modelled as
integers counting days; `timedelta(days = d)` is addition of `d`.
Python `dict`s (insertion-ordered, key update in place) are modelled as
association lists.
-/

/-- The variant discriminator of a catalog entry: `PhysicalBook` or `Ebook`
subclass in the source, a closed sum here. -/
inductive BookType where
  | physical
  | ebook
deriving DecidableEq, Repr

/-- A `Book` object: `isbn`, `title`, `_total` (set from `total_copies` at
construction), `_available` (set to `total_copies` at construction), plus the
variant tag that the subclasses `PhysicalBook`/`Ebook` carry. Copy counters
are Python ints, hence `Int` (no guard stops them from leaving `[0, total]`). -/
structure Book where
  isbn : String
  title : String
  total : Int
  available : Int
  type : BookType
deriving DecidableEq, Repr

/-- `Book.decrease_copy`: `self._available -= 1` (no bounds check). -/
def Book.decrease_copy (b : Book) : Book :=
  { b with available := b.available - 1 }

/-- `Book.increase_copy`: `self._available += 1` (no bounds check). -/
def Book.increase_copy (b : Book) : Book :=
  { b with available := b.available + 1 }

/-- `PhysicalBook(isbn, title, total_copies)` / `Ebook(...)`: both set
`_available = _total = total_copies`. -/
def mkBook (isbn title : String) (total : Int) (ty : BookType) : Book :=
  { isbn := isbn, title := title, total := total, available := total, type := ty }

/-- A `Loan` record: reference to the borrowed `Book` (heap id), the borrowing
member's id, `borrow_date`, and `due_date` (computed once in
`__post_init__`). -/
structure Loan where
  book : Nat
  member : String
  borrow_date : Int
  due_date : Int
deriving DecidableEq, Repr

/-- Loan duration in days: `7 if isinstance(self.book, PhysicalBook) else 14`. -/
def loanDays : BookType → Int
  | .physical => 7
  | .ebook => 14

/-- `Loan(book, member)` followed by `__post_init__`: `borrow_date` defaults to
today and `due_date = borrow_date + timedelta(days)`. `b` is the book object
the heap id `bid` refers to at creation time. -/
def mkLoan (bid : Nat) (b : Book) (mid : String) (today : Int) : Loan :=
  { book := bid, member := mid, borrow_date := today,
    due_date := today + loanDays b.type }

/-- A `Member`: id, name, and the ordered list `_loans` of active loans. -/
structure Member where
  user_id : String
  name : String
  loans : List Loan
deriving DecidableEq, Repr

/-- `Member.MAX_BORROW = 5`. -/
def MAX_BORROW : Nat := 5

/-- The three outcomes of `Member.borrow`, distinguished by the returned
status message. -/
inductive BorrowResult where
  | limitExceeded
  | noCopies
  | ok
deriving DecidableEq, Repr

/-- The two outcomes of `Member.return_book`. -/
inductive ReturnResult where
  | invalidIndex
  | ok
deriving DecidableEq, Repr

/-- Association-list lookup, first match: models Python `dict` access
(keys are unique in every dict the program builds). -/
def alookup (k : String) : List (String × α) → Option α
  | [] => none
  | (k', v) :: rest => if k' = k then some v else alookup k rest

/-- Python `dict.__setitem__`: update in place when the key is present
(keeping its position), append otherwise. -/
def dictInsert (k : String) (v : α) : List (String × α) → List (String × α)
  | [] => [(k, v)]
  | (k', v') :: rest =>
    if k' = k then (k, v) :: rest else (k', v') :: dictInsert k v rest

/-- Python `dict.pop(k, None)`: drop the entry with key `k` if present. -/
def dictRemove (k : String) (l : List (String × α)) : List (String × α) :=
  l.filter (fun p => p.1 ≠ k)

/-- Increment `available` of the book object at heap id `bid`
(`loan.book.increase_copy()` through a reference). -/
def incBook (books : List Book) (bid : Nat) : List Book :=
  match books[bid]? with
  | none => books
  | some b => books.set bid b.increase_copy

/-- Python `list.pop(i)` index resolution: valid iff `-len ≤ i < len`,
a negative index counting from the end. Returns the physical position. -/
def popIndex (len : Nat) (i : Int) : Option Nat :=
  if 0 ≤ i then
    if i < (len : Int) then some i.toNat else none
  else
    if -(len : Int) ≤ i then some ((len : Int) + i).toNat else none

/-- The session store (`st.session_state`): the book heap, the inventory
dict (isbn → book reference) and the members dict. Librarians carry no
state beyond identity and are omitted. -/
structure LibState where
  books : List Book
  inventory : List (String × Nat)
  members : List (String × Member)
deriving DecidableEq, Repr

/-- `Member.borrow(book)`: fail when `len(self._loans) >= MAX_BORROW`, else
fail when `book.available_copies <= 0`, else append a fresh `Loan` and
`book.decrease_copy()`. `none` marks the un-Python situation of a dangling
member id or book reference (method calls always have live objects). -/
def LibState.borrow (s : LibState) (mid : String) (bid : Nat) (today : Int) :
    Option (BorrowResult × LibState) :=
  match alookup mid s.members, s.books[bid]? with
  | some m, some b =>
    if MAX_BORROW ≤ m.loans.length then
      some (.limitExceeded, s)
    else if b.available ≤ 0 then
      some (.noCopies, s)
    else
      some (.ok,
        { s with
          books := s.books.set bid b.decrease_copy,
          members := dictInsert mid
            { m with loans := m.loans ++ [mkLoan bid b mid today] } s.members })
  | _, _ => none

/-- `Member.return_book(loan_index)`: `self._loans.pop(loan_index)` (Python
index semantics, `IndexError` caught as the invalid-index message), then
`loan.close()` (a no-op) and `loan.book.increase_copy()`. -/
def LibState.return_book (s : LibState) (mid : String) (i : Int) :
    Option (ReturnResult × LibState) :=
  match alookup mid s.members with
  | none => none
  | some m =>
    match popIndex m.loans.length i with
    | none => some (.invalidIndex, s)
    | some j =>
      match m.loans[j]? with
      | none => none
      | some loan =>
        some (.ok,
          { s with
            books := incBook s.books loan.book,
            members := dictInsert mid
              { m with loans := m.loans.eraseIdx j } s.members })

/-- One loan of the sweep's inner loop: the loan is dropped and its book's
counter incremented when `isinstance(loan.book, Ebook) and loan.due_date <
today` holds of the heap at that point, kept otherwise. -/
def expired (books : List Book) (today : Int) (l : Loan) : Bool :=
  match books[l.book]? with
  | some b => b.type = BookType.ebook ∧ l.due_date < today
  | none => false

/-- The sweep's inner loop over one member's `_loans`, threading the book
heap: expired e-book loans increment their book and are dropped, the rest
are collected in order (`still_open`). -/
def sweepLoans (today : Int) : List Book → List Loan → List Book × List Loan
  | books, [] => (books, [])
  | books, l :: ls =>
    if expired books today l then
      sweepLoans today (incBook books l.book) ls
    else
      let r := sweepLoans today books ls
      (r.1, l :: r.2)

/-- The sweep's outer loop over `st.session_state.members.values()`, in
dict order, threading the book heap; each member's `_loans` is replaced by
its `still_open` list. -/
def sweepMembers (today : Int) :
    List Book → List (String × Member) → List Book × List (String × Member)
  | books, [] => (books, [])
  | books, (k, m) :: rest =>
    let r := sweepLoans today books m.loans
    let r2 := sweepMembers today r.1 rest
    (r2.1, (k, { m with loans := r.2 }) :: r2.2)

/-- `LoanManager.auto_return_ebooks()`, run with the given current date. -/
def LibState.auto_return_ebooks (s : LibState) (today : Int) : LibState :=
  let r := sweepMembers today s.books s.members
  { s with books := r.1, members := r.2 }

/-- `Librarian.add_book(book)`: allocate the new `Book` object (appended to
the heap) and `st.session_state.inventory[book.isbn] = book`. -/
def LibState.add_book (s : LibState) (isbn title : String) (total : Int)
    (ty : BookType) : LibState :=
  { s with
    books := s.books ++ [mkBook isbn title total ty],
    inventory := dictInsert isbn s.books.length s.inventory }

/-- `Librarian.remove_book(isbn)`: `st.session_state.inventory.pop(isbn, None)`. -/
def LibState.remove_book (s : LibState) (isbn : String) : LibState :=
  { s with inventory := dictRemove isbn s.inventory }

/-- The public operations a front end can route to the domain core.
A borrow reaches its book through the inventory (the UI iterates
`st.session_state.inventory.values()`). -/
inductive Op where
  | opBorrow (mid isbn : String) (today : Int)
  | opReturn (mid : String) (i : Int)
  | opSweep (today : Int)
  | opAdd (isbn title : String) (total : Int) (ty : BookType)
  | opRemove (isbn : String)
deriving DecidableEq, Repr

/-- One front-end action applied to the session store (result messages
discarded; an action on a nonexistent member or book is a no-op, as the UI
never produces one). -/
def step (op : Op) (s : LibState) : LibState :=
  match op with
  | .opBorrow mid isbn today =>
    match alookup isbn s.inventory with
    | none => s
    | some bid =>
      match s.borrow mid bid today with
      | none => s
      | some (_, s') => s'
  | .opReturn mid i =>
    match s.return_book mid i with
    | none => s
    | some (_, s') => s'
  | .opSweep today => s.auto_return_ebooks today
  | .opAdd isbn title total ty => s.add_book isbn title total ty
  | .opRemove isbn => s.remove_book isbn

/-- Run a sequence of front-end actions. -/
def runOps : List Op → LibState → LibState
  | [], s => s
  | op :: ops, s => runOps ops (step op s)

/-- The seeded session store: `inventory["111"] = PhysicalBook("111",
"Python 101", 3)`, `inventory["222"] = Ebook("222", "Streamlit in Action",
5)`, members `alice` and `bob`. -/
def initState : LibState :=
  { books := [mkBook "111" "Python 101" 3 .physical,
              mkBook "222" "Streamlit in Action" 5 .ebook],
    inventory := [("111", 0), ("222", 1)],
    members := [("alice", { user_id := "alice", name := "Alice", loans := [] }),
                ("bob", { user_id := "bob", name := "Bob", loans := [] })] }


/-! ### Association-list (Python dict) lemmas -/

theorem alookup_mem {l : List (String × α)} (h : alookup k l = some v) :
    (k, v) ∈ l := by
  induction l with
  | nil => simp [alookup] at h
  | cons p rest ih =>
    obtain ⟨k', v'⟩ := p
    by_cases hk : k' = k
    · subst hk
      simp [alookup] at h
      simp [h]
    · simp [alookup, hk] at h
      exact List.mem_cons_of_mem _ (ih h)

theorem mem_dictInsert {l : List (String × α)} (h : p ∈ dictInsert k v l) :
    p = (k, v) ∨ p ∈ l := by
  induction l with
  | nil => simpa [dictInsert] using h
  | cons q rest ih =>
    obtain ⟨k', v'⟩ := q
    by_cases hk : k' = k
    · simp [dictInsert, hk] at h
      rcases h with h | h
      · exact Or.inl h
      · exact Or.inr (List.mem_cons_of_mem _ h)
    · simp [dictInsert, hk] at h
      rcases h with h | h
      · exact Or.inr (by simp [h])
      · rcases ih h with h' | h'
        · exact Or.inl h'
        · exact Or.inr (List.mem_cons_of_mem _ h')

theorem alookup_dictInsert_self (k : String) (v : α) (l : List (String × α)) :
    alookup k (dictInsert k v l) = some v := by
  induction l with
  | nil => simp [dictInsert, alookup]
  | cons q rest ih =>
    obtain ⟨k', v'⟩ := q
    by_cases hk : k' = k
    · simp [dictInsert, hk, alookup]
    · simp [dictInsert, hk, alookup, ih]

theorem alookup_dictInsert_ne (hk : k' ≠ k) (v : α) (l : List (String × α)) :
    alookup k' (dictInsert k v l) = alookup k' l := by
  have hk2 : ¬(k = k') := fun h => hk h.symm
  induction l with
  | nil => simp [dictInsert, alookup, hk2]
  | cons q rest ih =>
    obtain ⟨k'', v''⟩ := q
    by_cases h2 : k'' = k
    · subst h2
      simp [dictInsert, alookup, hk2]
    · simp [dictInsert, h2, alookup, ih]

theorem dictInsert_dictInsert (k : String) (v v' : α) (l : List (String × α)) :
    dictInsert k v (dictInsert k v' l) = dictInsert k v l := by
  induction l with
  | nil => simp [dictInsert]
  | cons q rest ih =>
    obtain ⟨k', v''⟩ := q
    by_cases hk : k' = k
    · simp [dictInsert, hk]
    · simp [dictInsert, hk, ih]

theorem dictInsert_eq_self {l : List (String × α)} (h : alookup k l = some v) :
    dictInsert k v l = l := by
  induction l with
  | nil => simp [alookup] at h
  | cons q rest ih =>
    obtain ⟨k', v'⟩ := q
    by_cases hk : k' = k
    · subst hk
      simp [alookup] at h
      simp [dictInsert, h]
    · simp [alookup, hk] at h
      simp [dictInsert, hk, ih h]

theorem alookup_dictRemove_self (k : String) (l : List (String × α)) :
    alookup k (dictRemove k l) = none := by
  induction l with
  | nil => simp [dictRemove, alookup]
  | cons q rest ih =>
    obtain ⟨k', v'⟩ := q
    by_cases hk : k' = k
    · simpa [dictRemove, hk, alookup] using ih
    · simpa [dictRemove, List.filter_cons, hk, alookup] using ih

theorem alookup_dictRemove_ne (hk : k' ≠ k) (l : List (String × α)) :
    alookup k' (dictRemove k l) = alookup k' l := by
  induction l with
  | nil => rfl
  | cons q rest ih =>
    obtain ⟨k'', v''⟩ := q
    by_cases h2 : k'' = k
    · have hne : ¬(k'' = k') := by rw [h2]; exact fun h => hk h.symm
      have hdrop : dictRemove k ((k'', v'') :: rest) = dictRemove k rest := by
        simp [dictRemove, List.filter_cons, h2]
      rw [hdrop, ih]
      simp [alookup, hne]
    · have hkeep : dictRemove k ((k'', v'') :: rest) = (k'', v'') :: dictRemove k rest := by
        simp [dictRemove, List.filter_cons, h2]
      rw [hkeep]
      by_cases h3 : k'' = k'
      · simp [alookup, h3]
      · simp [alookup, h3, ih]

theorem dictRemove_eq_self {l : List (String × α)} (h : alookup k l = none) :
    dictRemove k l = l := by
  induction l with
  | nil => simp [dictRemove]
  | cons q rest ih =>
    obtain ⟨k', v'⟩ := q
    by_cases hk : k' = k
    · simp [alookup, hk] at h
    · simp [alookup, hk] at h
      have hstep : dictRemove k ((k', v') :: rest) = (k', v') :: dictRemove k rest := by
        simp [dictRemove, List.filter_cons, hk]
      rw [hstep, ih h]

theorem sum_map_dictInsert (f : String × α → ℕ) {l : List (String × α)}
    (h : alookup k l = some m) (v : α) :
    ((dictInsert k v l).map f).sum + f (k, m) = (l.map f).sum + f (k, v) := by
  induction l with
  | nil => simp [alookup] at h
  | cons q rest ih =>
    obtain ⟨k', v'⟩ := q
    by_cases hk : k' = k
    · subst hk
      simp [alookup] at h
      subst h
      simp [dictInsert]
      omega
    · simp [alookup, hk] at h
      have := ih h
      simp [dictInsert, hk]
      omega

/-! ### Heap lemmas -/

theorem getElem?_some_lt {l : List α} (h : l[i]? = some a) : i < l.length :=
  (List.getElem?_eq_some.1 h).1

theorem length_incBook (books : List Book) (bid : Nat) :
    (incBook books bid).length = books.length := by
  unfold incBook
  cases h : books[bid]? <;> simp

theorem getElem?_incBook_self {books : List Book} (h : books[bid]? = some b) :
    (incBook books bid)[bid]? = some b.increase_copy := by
  unfold incBook
  rw [h]
  rw [List.getElem?_set_eq_of_lt _ (getElem?_some_lt h)]

theorem getElem?_incBook_ne {books : List Book} (h : bid' ≠ bid) :
    (incBook books bid)[bid']? = books[bid']? := by
  unfold incBook
  cases hb : books[bid]? with
  | none => rfl
  | some b => exact List.getElem?_set_ne (fun he => h he.symm)

theorem set_getElem?_same {l : List α} (h : l[i]? = some a) : l.set i a = l := by
  induction l generalizing i with
  | nil => simp at h
  | cons x xs ih =>
    cases i with
    | zero =>
      have hx : x = a := by simpa using h
      subst hx
      rfl
    | succ n =>
      have h' : xs[n]? = some a := by simpa using h
      show x :: xs.set n a = x :: xs
      rw [ih h']

/-! ### popIndex and eraseIdx lemmas -/

theorem popIndex_of_nonneg {len : Nat} {i : Int} (h0 : 0 ≤ i) (h : i < (len : Int)) :
    popIndex len i = some i.toNat := by
  simp [popIndex, h0, h]

theorem popIndex_of_neg {len : Nat} {i : Int} (h0 : i < 0) (h : -(len : Int) ≤ i) :
    popIndex len i = some ((len : Int) + i).toNat := by
  have : ¬(0 ≤ i) := by omega
  simp [popIndex, this, h]

theorem popIndex_oob {len : Nat} {i : Int} (h : (len : Int) ≤ i ∨ i < -(len : Int)) :
    popIndex len i = none := by
  rcases h with h | h
  · have h0 : 0 ≤ i := by omega
    simp [popIndex, h0]
    omega
  · have h0 : ¬(0 ≤ i) := by omega
    simp [popIndex, h0]
    omega

theorem popIndex_lt {len : Nat} (h : popIndex len i = some j) : j < len := by
  unfold popIndex at h
  by_cases h0 : 0 ≤ i
  · simp [h0] at h
    obtain ⟨h1, h2⟩ := h
    omega
  · simp [h0] at h
    obtain ⟨h1, h2⟩ := h
    have : i < 0 := by omega
    omega

theorem eraseIdx_concat (l : List α) (a : α) :
    (l ++ [a]).eraseIdx l.length = l := by
  induction l with
  | nil => rfl
  | cons x xs ih =>
    show x :: (xs ++ [a]).eraseIdx xs.length = x :: xs
    rw [ih]

theorem getElem?_concat (l : List α) (a : α) : (l ++ [a])[l.length]? = some a := by
  induction l with
  | nil => rfl
  | cons x xs ih =>
    simp [ih]

/-- Removing the element at a valid position removes exactly one element
satisfying `p` when that element satisfies `p`, none otherwise. -/
theorem filter_length_eraseIdx {l : List α} (h : l[j]? = some x) (p : α → Bool) :
    ((l.eraseIdx j).filter p).length + (if p x then 1 else 0) =
      (l.filter p).length := by
  induction l generalizing j with
  | nil => simp at h
  | cons y ys ih =>
    cases j with
    | zero =>
      have hx : y = x := by simpa using h
      subst hx
      cases hp : p y <;> simp [List.eraseIdx, List.filter_cons, hp]
    | succ n =>
      have h' : ys[n]? = some x := by simpa using h
      have := ih h'
      cases hp : p y <;> simp [List.eraseIdx, List.filter_cons, hp] <;> omega

/-- Partition of a filtered count along a second predicate. -/
theorem filter_partition_length (q r : α → Bool) (l : List α) :
    ((l.filter (fun a => !q a)).filter r).length +
      (l.filter (fun a => q a && r a)).length = (l.filter r).length := by
  rw [List.filter_filter]
  induction l with
  | nil => rfl
  | cons x xs ih =>
    cases hq : q x <;> cases hr : r x <;>
      simp [List.filter_cons, hq, hr] <;> omega

theorem mem_eraseIdx {l : List α} (h : a ∈ l.eraseIdx j) : a ∈ l := by
  induction l generalizing j with
  | nil => simp [List.eraseIdx] at h
  | cons x xs ih =>
    cases j with
    | zero => exact List.mem_cons_of_mem _ h
    | succ n =>
      rcases List.mem_cons.1 h with h' | h'
      · simp [h']
      · exact List.mem_cons_of_mem _ (ih h')

/-! ### Sweep characterization -/

/-- Number of loans in `ls` that the sweep's inner loop expires and whose
book is the heap object `bid`, with the predicate read off the heap `books`. -/
def expCnt (books : List Book) (today : Int) (bid : Nat) (ls : List Loan) : Nat :=
  (ls.filter (fun l => expired books today l && l.book == bid)).length

/-- Total expiry count for `bid` over a list of members. -/
def memsExpCnt (books : List Book) (today : Int) (bid : Nat)
    (mems : List (String × Member)) : Nat :=
  (mems.map (fun p => expCnt books today bid p.2.loans)).sum

/-- Bumping a book's `available` does not change which loans count as
expired: the predicate only reads the variant tag and the due date. -/
theorem expired_incBook (books : List Book) (j : Nat) (today : Int) (l : Loan) :
    expired (incBook books j) today l = expired books today l := by
  by_cases h : l.book = j
  · subst h
    cases hb : books[l.book]? with
    | none => simp [expired, incBook, hb]
    | some b => simp [expired, getElem?_incBook_self hb, hb, Book.increase_copy]
  · simp [expired, getElem?_incBook_ne h]

theorem expCnt_incBook (books : List Book) (j : Nat) (today : Int)
    (bid : Nat) (ls : List Loan) :
    expCnt (incBook books j) today bid ls = expCnt books today bid ls := by
  unfold expCnt
  congr 1
  apply List.filter_congr
  intro l _
  rw [expired_incBook]

/-- The still-open list the inner loop produces is exactly the original
sequence filtered by the (heap-stable) expiry predicate, in order. -/
theorem sweepLoans_snd (today : Int) (books : List Book) (ls : List Loan) :
    (sweepLoans today books ls).2 = ls.filter (fun l => !expired books today l) := by
  induction ls generalizing books with
  | nil => rfl
  | cons l ls ih =>
    cases h : expired books today l with
    | true =>
      have hred : sweepLoans today books (l :: ls) =
          sweepLoans today (incBook books l.book) ls := by
        simp [sweepLoans, h]
      have hcongr : List.filter (fun l' => !expired (incBook books l.book) today l') ls
          = List.filter (fun l' => !expired books today l') ls :=
        List.filter_congr (fun l' _ => by rw [expired_incBook])
      rw [hred, ih, hcongr, List.filter_cons]
      simp [h]
    | false =>
      have hred : (sweepLoans today books (l :: ls)).2 =
          l :: (sweepLoans today books ls).2 := by
        simp [sweepLoans, h]
      rw [hred, ih, List.filter_cons]
      simp [h]

theorem sweepLoans_fst_length (today : Int) (books : List Book) (ls : List Loan) :
    (sweepLoans today books ls).1.length = books.length := by
  induction ls generalizing books with
  | nil => rfl
  | cons l ls ih =>
    cases h : expired books today l with
    | true =>
      have hred : (sweepLoans today books (l :: ls)).1 =
          (sweepLoans today (incBook books l.book) ls).1 := by
        simp [sweepLoans, h]
      rw [hred, ih, length_incBook]
    | false =>
      have hred : (sweepLoans today books (l :: ls)).1 =
          (sweepLoans today books ls).1 := by
        simp [sweepLoans, h]
      rw [hred, ih]

/-- Heap effect of the inner loop at a live id: `available` grows by the
number of expired loans on that book; nothing else changes. -/
theorem sweepLoans_fst_getElem? (today : Int) (books : List Book) (ls : List Loan)
    (bid : Nat) (b : Book) (hb : books[bid]? = some b) :
    (sweepLoans today books ls).1[bid]? =
      some { b with available := b.available + (expCnt books today bid ls : Int) } := by
  induction ls generalizing books b with
  | nil =>
    simp [sweepLoans, expCnt, hb]
  | cons l ls ih =>
    cases h : expired books today l with
    | true =>
      have hred : (sweepLoans today books (l :: ls)).1 =
          (sweepLoans today (incBook books l.book) ls).1 := by
        simp [sweepLoans, h]
      rw [hred]
      by_cases hl : l.book = bid
      · subst hl
        have hb' : (incBook books l.book)[l.book]? = some b.increase_copy :=
          getElem?_incBook_self hb
        rw [ih _ _ hb', expCnt_incBook]
        have hcnt : expCnt books today l.book (l :: ls) =
            expCnt books today l.book ls + 1 := by
          simp [expCnt, List.filter_cons, h]
        rw [hcnt]
        simp [Book.increase_copy]
        ring
      · have hb' : (incBook books l.book)[bid]? = some b := by
          rw [getElem?_incBook_ne (fun he => hl he.symm)]; exact hb
        rw [ih _ _ hb', expCnt_incBook]
        have hcnt : expCnt books today bid (l :: ls) = expCnt books today bid ls := by
          simp [expCnt, List.filter_cons, h, hl]
        rw [hcnt]
    | false =>
      have hred : (sweepLoans today books (l :: ls)).1 =
          (sweepLoans today books ls).1 := by
        simp [sweepLoans, h]
      rw [hred, ih _ _ hb]
      have hcnt : expCnt books today bid (l :: ls) = expCnt books today bid ls := by
        simp [expCnt, List.filter_cons, h]
      rw [hcnt]

theorem sweepLoans_fst_getElem?_none (today : Int) (books : List Book)
    (ls : List Loan) (bid : Nat) (hb : books[bid]? = none) :
    (sweepLoans today books ls).1[bid]? = none := by
  have hlen : books.length ≤ bid := by
    by_contra hlt
    push_neg at hlt
    rw [List.getElem?_eq_getElem hlt] at hb
    exact Option.noConfusion hb
  rw [List.getElem?_eq_none]
  rw [sweepLoans_fst_length]
  exact hlen

/-- The expiry predicate is unchanged by the whole inner loop's heap effect. -/
theorem expired_sweepLoans_fst (today : Int) (books : List Book) (ls : List Loan)
    (l : Loan) :
    expired ((sweepLoans today books ls).1) today l = expired books today l := by
  cases hb : books[l.book]? with
  | none => simp [expired, sweepLoans_fst_getElem?_none today books ls _ hb, hb]
  | some b => simp [expired, sweepLoans_fst_getElem? today books ls _ b hb, hb]

theorem expCnt_sweepLoans_fst (today : Int) (books : List Book) (ls0 : List Loan)
    (bid : Nat) (ls : List Loan) :
    expCnt ((sweepLoans today books ls0).1) today bid ls = expCnt books today bid ls := by
  unfold expCnt
  congr 1
  apply List.filter_congr
  intro l _
  rw [expired_sweepLoans_fst]

/-- Member effect of the whole sweep: every member's loan sequence is
filtered by the expiry predicate of the pre-sweep heap, in order. -/
theorem sweepMembers_snd (today : Int) (books : List Book)
    (mems : List (String × Member)) :
    (sweepMembers today books mems).2 =
      mems.map (fun p => (p.1,
        { p.2 with loans := p.2.loans.filter (fun l => !expired books today l) })) := by
  induction mems generalizing books with
  | nil => rfl
  | cons p rest ih =>
    obtain ⟨k, m⟩ := p
    show (k, { m with loans := (sweepLoans today books m.loans).2 }) ::
        (sweepMembers today (sweepLoans today books m.loans).1 rest).2 = _
    rw [sweepLoans_snd, ih]
    have hcongr : ∀ m' : Member,
        m'.loans.filter (fun l => !expired ((sweepLoans today books m.loans).1) today l)
          = m'.loans.filter (fun l => !expired books today l) := by
      intro m'
      exact List.filter_congr (fun l _ => by rw [expired_sweepLoans_fst])
    simp only [List.map_cons]
    congr 1
    apply List.map_congr_left
    intro q _
    rw [hcongr]

theorem sweepMembers_fst_length (today : Int) (books : List Book)
    (mems : List (String × Member)) :
    (sweepMembers today books mems).1.length = books.length := by
  induction mems generalizing books with
  | nil => rfl
  | cons p rest ih =>
    obtain ⟨k, m⟩ := p
    show (sweepMembers today (sweepLoans today books m.loans).1 rest).1.length = _
    rw [ih, sweepLoans_fst_length]

/-- Heap effect of the whole sweep at a live id: `available` grows by the
total number of expired loans on that book over all members. -/
theorem sweepMembers_fst_getElem? (today : Int) (books : List Book)
    (mems : List (String × Member)) (bid : Nat) (b : Book)
    (hb : books[bid]? = some b) :
    (sweepMembers today books mems).1[bid]? =
      some { b with available := b.available + (memsExpCnt books today bid mems : Int) } := by
  induction mems generalizing books b with
  | nil => simp [sweepMembers, memsExpCnt, hb]
  | cons p rest ih =>
    obtain ⟨k, m⟩ := p
    show (sweepMembers today (sweepLoans today books m.loans).1 rest).1[bid]? = _
    have hb' := sweepLoans_fst_getElem? today books m.loans bid b hb
    rw [ih _ _ hb']
    have hcnt : memsExpCnt ((sweepLoans today books m.loans).1) today bid rest =
        memsExpCnt books today bid rest := by
      unfold memsExpCnt
      congr 1
      apply List.map_congr_left
      intro q _
      rw [expCnt_sweepLoans_fst]
    rw [hcnt]
    have : memsExpCnt books today bid ((k, m) :: rest) =
        expCnt books today bid m.loans + memsExpCnt books today bid rest := by
      simp [memsExpCnt]
    rw [this]
    simp
    ring

theorem sweepMembers_fst_getElem?_none (today : Int) (books : List Book)
    (mems : List (String × Member)) (bid : Nat) (hb : books[bid]? = none) :
    (sweepMembers today books mems).1[bid]? = none := by
  have hlen : books.length ≤ bid := by
    by_contra hlt
    push_neg at hlt
    rw [List.getElem?_eq_getElem hlt] at hb
    exact Option.noConfusion hb
  rw [List.getElem?_eq_none]
  rw [sweepMembers_fst_length]
  exact hlen

theorem expired_sweepMembers_fst (today : Int) (books : List Book)
    (mems : List (String × Member)) (l : Loan) :
    expired ((sweepMembers today books mems).1) today l = expired books today l := by
  cases hb : books[l.book]? with
  | none => simp [expired, sweepMembers_fst_getElem?_none today books mems _ hb, hb]
  | some b => simp [expired, sweepMembers_fst_getElem? today books mems _ b hb, hb]

attribute [ext] LibState

/-! ### Result-shape lemmas for the mutating operations -/

/-- Every outcome of `borrow` either leaves the state unchanged (the two
failure messages) or is the success mutation. -/
theorem borrow_result {s s' : LibState} {r : BorrowResult}
    (h : s.borrow mid bid today = some (r, s')) :
    (r ≠ .ok ∧ s' = s) ∨ ∃ m b, alookup mid s.members = some m ∧ s.books[bid]? = some b ∧
      r = .ok ∧ m.loans.length < MAX_BORROW ∧ 0 < b.available ∧
      s' = { s with
        books := s.books.set bid b.decrease_copy
        members := dictInsert mid
          { m with loans := m.loans ++ [mkLoan bid b mid today] } s.members } := by
  unfold LibState.borrow at h
  cases hm : alookup mid s.members with
  | none => rw [hm] at h; exact absurd h (by simp)
  | some m =>
    cases hb : s.books[bid]? with
    | none => rw [hm, hb] at h; exact absurd h (by simp)
    | some b =>
      rw [hm, hb] at h
      simp only at h
      split_ifs at h with h1 h2
      · simp at h
        exact Or.inl ⟨by rw [← h.1]; simp, h.2.symm⟩
      · simp at h
        exact Or.inl ⟨by rw [← h.1]; simp, h.2.symm⟩
      · simp at h
        refine Or.inr ⟨m, b, rfl, rfl, h.1.symm, by omega, by omega, h.2.symm⟩

/-- Every outcome of `return_book` either leaves the state unchanged (the
invalid-index message) or is the success mutation. -/
theorem return_result {s s' : LibState} {r : ReturnResult}
    (h : s.return_book mid i = some (r, s')) :
    (r = .invalidIndex ∧ s' = s) ∨ ∃ m j loan, alookup mid s.members = some m ∧
      popIndex m.loans.length i = some j ∧ m.loans[j]? = some loan ∧
      r = .ok ∧
      s' = { s with
        books := incBook s.books loan.book
        members := dictInsert mid
          { m with loans := m.loans.eraseIdx j } s.members } := by
  unfold LibState.return_book at h
  split at h
  · exact absurd h (by simp)
  next m hm =>
    split at h
    next hj =>
      simp at h
      exact Or.inl ⟨h.1.symm, h.2.symm⟩
    next j hj =>
      split at h
      · exact absurd h (by simp)
      next loan hl =>
        simp at h
        exact Or.inr ⟨m, j, loan, hm, hj, hl, h.1.symm, h.2.symm⟩

/-! ### The borrow-limit invariant (C2) -/

/-- No member's active-loan count exceeds `MAX_BORROW`. -/
def loanInv (s : LibState) : Prop :=
  ∀ p ∈ s.members, p.2.loans.length ≤ MAX_BORROW

theorem loanInv_step (op : Op) (s : LibState) (h : loanInv s) :
    loanInv (step op s) := by
  cases op with
  | opBorrow mid isbn today =>
    simp only [step]
    cases hi : alookup isbn s.inventory with
    | none => exact h
    | some bid =>
      cases hb : s.borrow mid bid today with
      | none => simp only [hb]; exact h
      | some rs =>
        simp only [hb]
        obtain ⟨r, s'⟩ := rs
        rcases borrow_result hb with ⟨_, rfl⟩ | ⟨m, b, hm, hbk, _, hlen, _, rfl⟩
        · exact h
        · intro p hp
          rcases mem_dictInsert hp with rfl | hp'
          · simp
            omega
          · exact h p hp'
  | opReturn mid i =>
    simp only [step]
    cases hb : s.return_book mid i with
    | none => simp only [hb]; exact h
    | some rs =>
      simp only [hb]
      obtain ⟨r, s'⟩ := rs
      rcases return_result hb with ⟨_, rfl⟩ | ⟨m, j, loan, hm, hj, hl, _, rfl⟩
      · exact h
      · intro p hp
        rcases mem_dictInsert hp with rfl | hp'
        · have hmem := h _ (alookup_mem hm)
          have : (m.loans.eraseIdx j).length ≤ m.loans.length :=
            List.length_eraseIdx_le _ _
          simp at hmem ⊢
          omega
        · exact h p hp'
  | opSweep today =>
    intro p hp
    have hmem : p ∈ (sweepMembers today s.books s.members).2 := hp
    rw [sweepMembers_snd] at hmem
    rcases List.mem_map.1 hmem with ⟨q, hq, rfl⟩
    have := h q hq
    have hle : (q.2.loans.filter (fun l => !expired s.books today l)).length ≤
        q.2.loans.length := List.length_filter_le _ _
    simp at this ⊢
    omega
  | opAdd isbn title total ty =>
    intro p hp
    exact h p hp
  | opRemove isbn =>
    intro p hp
    exact h p hp

theorem loanInv_runOps (ops : List Op) (s : LibState) (h : loanInv s) :
    loanInv (runOps ops s) := by
  induction ops generalizing s with
  | nil => exact h
  | cons op ops ih => exact ih _ (loanInv_step op s h)

theorem loanInv_initState : loanInv initState := by
  unfold loanInv
  decide

/-! ### The copy-accounting invariant (C6) -/

/-- Number of active loans of member `m` on the book object `bid`. -/
def loansOn (bid : Nat) (m : Member) : Nat :=
  (m.loans.filter (fun l => l.book == bid)).length

/-- Total number of active loans on the book object `bid` over all members. -/
def outstanding (bid : Nat) (s : LibState) : Nat :=
  (s.members.map (fun p => loansOn bid p.2)).sum

/-- Inductive invariant of reachable session stores: loan and inventory
references are live, and each book's `available` plus the loans out on it
equals `total`, with `available` nonnegative. -/
def wf (s : LibState) : Prop :=
  (∀ p ∈ s.members, ∀ l ∈ p.2.loans, l.book < s.books.length) ∧
  (∀ p ∈ s.inventory, p.2 < s.books.length) ∧
  (∀ bid b, s.books[bid]? = some b →
    b.available + (outstanding bid s : Int) = b.total ∧ 0 ≤ b.available)

/-- The front end's constraint on catalog additions: `st.number_input`
enforces `min_value=1` on total copies. -/
def opWF : Op → Prop
  | .opAdd _ _ total _ => 1 ≤ total
  | _ => True

theorem sweep_outstanding (books : List Book) (today : Int) (bid : Nat)
    (mems : List (String × Member)) :
    ((mems.map (fun p => (p.1,
        { p.2 with loans := p.2.loans.filter (fun l => !expired books today l) }))).map
          (fun p => loansOn bid p.2)).sum
      + memsExpCnt books today bid mems
      = (mems.map (fun p => loansOn bid p.2)).sum := by
  induction mems with
  | nil => rfl
  | cons p rest ih =>
    have hpart := filter_partition_length (fun l => expired books today l)
      (fun l => l.book == bid) p.2.loans
    simp only [List.map_cons, List.sum_cons, memsExpCnt, loansOn, expCnt] at *
    omega

theorem sum_loansOn_zero {bid : Nat} {mems : List (String × Member)}
    (h : ∀ p ∈ mems, loansOn bid p.2 = 0) :
    (mems.map (fun p => loansOn bid p.2)).sum = 0 := by
  induction mems with
  | nil => rfl
  | cons q rest ih =>
    simp only [List.map_cons, List.sum_cons]
    rw [h q (List.mem_cons_self q rest),
      ih (fun p hp => h p (List.mem_cons_of_mem _ hp))]

theorem wf_step (op : Op) (s : LibState) (hw : wf s) (hop : opWF op) :
    wf (step op s) := by
  obtain ⟨hLV, hIV, hACC⟩ := hw
  cases op with
  | opBorrow mid isbn today =>
    simp only [step]
    cases hi : alookup isbn s.inventory with
    | none => exact ⟨hLV, hIV, hACC⟩
    | some bid0 =>
      cases hbr : s.borrow mid bid0 today with
      | none => simp only [hbr]; exact ⟨hLV, hIV, hACC⟩
      | some rs =>
        simp only [hbr]
        obtain ⟨r, s'⟩ := rs
        rcases borrow_result hbr with ⟨_, rfl⟩ | ⟨m, b, hm, hb, _, hlen, hav, rfl⟩
        · exact ⟨hLV, hIV, hACC⟩
        · have hbidlt : bid0 < s.books.length := getElem?_some_lt hb
          refine ⟨?_, ?_, ?_⟩
          · intro p hp l hl
            simp only [List.length_set]
            rcases mem_dictInsert hp with rfl | hp'
            · simp only [List.mem_append, List.mem_singleton] at hl
              rcases hl with hl | hl
              · exact hLV _ (alookup_mem hm) l hl
              · rw [hl]; exact hbidlt
            · exact hLV p hp' l hl
          · intro p hp
            simp only [List.length_set]
            exact hIV p hp
          · intro bid b' hb'
            simp only at hb'
            have hsum := sum_map_dictInsert (fun p => loansOn bid p.2) hm
              { m with loans := m.loans ++ [mkLoan bid0 b mid today] }
            have hacc := hACC bid
            simp only [outstanding] at *
            by_cases hbid : bid = bid0
            · subst hbid
              rw [List.getElem?_set_eq_of_lt _ hbidlt] at hb'
              obtain rfl : b.decrease_copy = b' := Option.some.inj hb'
              have hplus : loansOn bid { m with loans := m.loans ++ [mkLoan bid b mid today] }
                  = loansOn bid m + 1 := by
                simp [loansOn, List.filter_append, mkLoan]
              have hacc2 := hacc b hb
              simp only [Book.decrease_copy, hplus] at *
              constructor <;> omega
            · rw [List.getElem?_set_ne (fun he => hbid he.symm)] at hb'
              have hacc2 := hacc b' hb'
              have hne : ¬(bid0 = bid) := fun he => hbid he.symm
              have hsame : loansOn bid { m with loans := m.loans ++ [mkLoan bid0 b mid today] }
                  = loansOn bid m := by
                simp [loansOn, List.filter_append, mkLoan, hne]
              simp only [hsame] at hsum
              constructor <;> omega
  | opReturn mid i =>
    simp only [step]
    cases hbr : s.return_book mid i with
    | none => simp only [hbr]; exact ⟨hLV, hIV, hACC⟩
    | some rs =>
      simp only [hbr]
      obtain ⟨r, s'⟩ := rs
      rcases return_result hbr with ⟨_, rfl⟩ | ⟨m, j, loan, hm, hj, hl, _, rfl⟩
      · exact ⟨hLV, hIV, hACC⟩
      · have hloanmem : loan ∈ m.loans := List.getElem?_mem hl
        have hloanlt : loan.book < s.books.length :=
          hLV _ (alookup_mem hm) loan hloanmem
        obtain ⟨bL, hbL⟩ : ∃ bL, s.books[loan.book]? = some bL := by
          rw [List.getElem?_eq_getElem hloanlt]
          exact ⟨_, rfl⟩
        refine ⟨?_, ?_, ?_⟩
        · intro p hp l hlp
          rw [length_incBook]
          rcases mem_dictInsert hp with rfl | hp'
          · exact hLV _ (alookup_mem hm) l (mem_eraseIdx hlp)
          · exact hLV p hp' l hlp
        · intro p hp
          rw [length_incBook]
          exact hIV p hp
        · intro bid b' hb'
          simp only at hb'
          have hsum := sum_map_dictInsert (fun p => loansOn bid p.2) hm
            { m with loans := m.loans.eraseIdx j }
          simp only [outstanding] at *
          by_cases hbid : bid = loan.book
          · subst hbid
            rw [getElem?_incBook_self hbL] at hb'
            obtain rfl : bL.increase_copy = b' := Option.some.inj hb'
            have hcnt := filter_length_eraseIdx hl (fun l => l.book == loan.book)
            have hacc2 := hACC loan.book bL hbL
            have hif : (if (loan.book == loan.book) = true then 1 else 0) = 1 := by simp
            rw [hif] at hcnt
            simp only [Book.increase_copy, loansOn, outstanding] at *
            constructor <;> omega
          · rw [getElem?_incBook_ne hbid] at hb'
            have hacc2 := hACC bid b' hb'
            have hcnt := filter_length_eraseIdx hl (fun l => l.book == bid)
            have hif : (if (loan.book == bid) = true then 1 else 0) = 0 := by
              simp
              exact fun he => hbid (Eq.symm he)
            rw [hif] at hcnt
            simp only [loansOn, outstanding] at *
            constructor <;> omega
  | opSweep today =>
    simp only [step, LibState.auto_return_ebooks]
    refine ⟨?_, ?_, ?_⟩
    · intro p hp l hlp
      simp only at hp hlp
      rw [sweepMembers_fst_length]
      rw [sweepMembers_snd] at hp
      rcases List.mem_map.1 hp with ⟨q, hq, rfl⟩
      simp only at hlp
      exact hLV q hq l (List.mem_of_mem_filter hlp)
    · intro p hp
      simp only at hp
      rw [sweepMembers_fst_length]
      exact hIV p hp
    · intro bid b' hb'
      simp only at hb'
      cases hb : s.books[bid]? with
      | none =>
        rw [sweepMembers_fst_getElem?_none today s.books s.members bid hb] at hb'
        exact absurd hb' (by simp)
      | some b =>
        rw [sweepMembers_fst_getElem? today s.books s.members bid b hb] at hb'
        obtain rfl := Option.some.inj hb'
        have hacc2 := hACC bid b hb
        have hout := sweep_outstanding s.books today bid s.members
        simp only [outstanding] at hacc2 ⊢
        show ({ b with available := b.available + (memsExpCnt s.books today bid s.members : Int) }).available
            + _ = b.total ∧ (0:Int) ≤ _
        rw [sweepMembers_snd]
        simp only [List.map_map] at hout ⊢
        constructor <;> omega
  | opAdd isbn title total ty =>
    simp only [step, LibState.add_book]
    have htot : (1 : Int) ≤ total := hop
    refine ⟨?_, ?_, ?_⟩
    · intro p hp l hlp
      simp only at hp hlp
      rw [List.length_append]
      have hv := hLV p hp l hlp
      simp only [List.length_singleton]
      omega
    · intro p hp
      simp only at hp
      rw [List.length_append]
      simp only [List.length_singleton]
      rcases mem_dictInsert hp with rfl | hp'
      · omega
      · have hv := hIV p hp'
        omega
    · intro bid b' hb'
      simp only at hb'
      have houts : ∀ bid', outstanding bid' { s with
          books := s.books ++ [mkBook isbn title total ty]
          inventory := dictInsert isbn s.books.length s.inventory } =
          outstanding bid' s := fun _ => rfl
      by_cases hlt : bid < s.books.length
      · rw [List.getElem?_append_left hlt] at hb'
        have hacc2 := hACC bid b' hb'
        rw [houts bid]
        exact hacc2
      · by_cases heq : bid = s.books.length
        · subst heq
          rw [getElem?_concat] at hb'
          obtain rfl : mkBook isbn title total ty = b' := Option.some.inj hb'
          have hzero : outstanding s.books.length s = 0 := by
            apply sum_loansOn_zero
            intro p hp
            have hall : ∀ l ∈ p.2.loans, ¬(l.book == s.books.length) = true := by
              intro l hlp
              have hv := hLV p hp l hlp
              simp only [beq_iff_eq]
              omega
            simp [loansOn, List.filter_eq_nil_iff.2 hall]
          rw [houts _, hzero]
          simp only [mkBook]
          constructor
          · simp
          · omega
        · have hge : s.books.length + 1 ≤ bid := by omega
          have hnone : (s.books ++ [mkBook isbn title total ty])[bid]? = none := by
            rw [List.getElem?_eq_none]
            rw [List.length_append]
            simpa using hge
          rw [hnone] at hb'
          exact absurd hb' (by simp)
  | opRemove isbn =>
    simp only [step, LibState.remove_book]
    refine ⟨?_, ?_, ?_⟩
    · intro p hp l hlp
      exact hLV p hp l hlp
    · intro p hp
      exact hIV p (List.mem_of_mem_filter hp)
    · intro bid b' hb'
      exact hACC bid b' hb'

theorem wf_runOps (ops : List Op) (s : LibState) (hw : wf s)
    (hops : ∀ op ∈ ops, opWF op) : wf (runOps ops s) := by
  induction ops generalizing s with
  | nil => exact hw
  | cons op ops ih =>
    exact ih _ (wf_step op s hw (hops op (List.mem_cons_self op ops)))
      (fun op' h => hops op' (List.mem_cons_of_mem _ h))

theorem wf_initState : wf initState := by
  refine ⟨?_, ?_, ?_⟩
  · intro p hp l hl
    simp [initState] at hp
    rcases hp with rfl | rfl <;> simp at hl
  · intro p hp
    simp [initState] at hp
    rcases hp with rfl | rfl <;> simp [initState]
  · intro bid b hb
    have hout : outstanding bid initState = 0 := rfl
    rw [hout]
    match bid, hb with
    | 0, hb =>
      have hbb : mkBook "111" "Python 101" 3 .physical = b := Option.some.inj hb
      rw [← hbb]
      constructor <;> norm_num [mkBook]
    | 1, hb =>
      have hbb : mkBook "222" "Streamlit in Action" 5 .ebook = b := Option.some.inj hb
      rw [← hbb]
      constructor <;> norm_num [mkBook]
    | (n+2), hb =>
      have : initState.books[n+2]? = none := rfl
      rw [this] at hb
      exact absurd hb (by simp)

/-! ### Per-operation success counters (C6) -/

/-- `(N, M)` contribution of one front-end action to the book object `bid`:
`N` counts a successful borrow of `bid`, `M` counts a return of a loan on
`bid` or the sweep's expiries on `bid`. -/
def stepCount (bid : Nat) (op : Op) (s : LibState) : Nat × Nat :=
  match op with
  | .opBorrow mid isbn today =>
    match alookup isbn s.inventory with
    | none => (0, 0)
    | some bid0 =>
      match s.borrow mid bid0 today with
      | some (.ok, _) => (if bid0 = bid then 1 else 0, 0)
      | _ => (0, 0)
  | .opReturn mid i =>
    match alookup mid s.members with
    | none => (0, 0)
    | some m =>
      match popIndex m.loans.length i with
      | none => (0, 0)
      | some j =>
        match m.loans[j]? with
        | none => (0, 0)
        | some loan => (0, if loan.book = bid then 1 else 0)
  | .opSweep today => (0, memsExpCnt s.books today bid s.members)
  | .opAdd _ _ _ _ => (0, 0)
  | .opRemove _ => (0, 0)

/-- Accumulated `(N, M)` counters of a run. -/
def runCount (bid : Nat) : List Op → LibState → Nat × Nat
  | [], _ => (0, 0)
  | op :: ops, s =>
    let c := stepCount bid op s
    let r := runCount bid ops (step op s)
    (c.1 + r.1, c.2 + r.2)

theorem some_book_zero (b : Book) :
    some b = some { b with available := b.available - ((0:Nat):Int) + ((0:Nat):Int) } := by
  norm_num

/-- One action's effect on a book object's `available` is exactly its
`stepCount` delta; all other fields are untouched. -/
theorem step_books (op : Op) (s : LibState) (bid : Nat) (b : Book)
    (hb : s.books[bid]? = some b) :
    (step op s).books[bid]? =
      some { b with available := b.available
        - ((stepCount bid op s).1 : Int) + ((stepCount bid op s).2 : Int) } := by
  cases op with
  | opBorrow mid isbn today =>
    simp only [step, stepCount]
    cases hi : alookup isbn s.inventory with
    | none =>
      rw [hb]
      exact some_book_zero b
    | some bid0 =>
      cases hbr : s.borrow mid bid0 today with
      | none =>
        simp only [hbr]
        rw [hb]
        exact some_book_zero b
      | some rs =>
        obtain ⟨r, s'⟩ := rs
        cases r with
        | limitExceeded =>
          simp only [hbr]
          rcases borrow_result hbr with ⟨_, rfl⟩ | ⟨m, b0, hm, hb0, hr, _, _, rfl⟩
          · rw [hb]; exact some_book_zero b
          · exact absurd hr (by simp)
        | noCopies =>
          simp only [hbr]
          rcases borrow_result hbr with ⟨_, rfl⟩ | ⟨m, b0, hm, hb0, hr, _, _, rfl⟩
          · rw [hb]; exact some_book_zero b
          · exact absurd hr (by simp)
        | ok =>
          simp only [hbr]
          rcases borrow_result hbr with ⟨hne, rfl⟩ | ⟨m, b0, hm, hb0, hr, hlen, hav, rfl⟩
          · exact absurd rfl hne
          · have hlt0 : bid0 < s.books.length := getElem?_some_lt hb0
            by_cases hbid : bid0 = bid
            · subst hbid
              obtain rfl : b0 = b := Option.some.inj (hb0.symm.trans hb)
              simp only
              rw [List.getElem?_set_eq_of_lt _ hlt0]
              simp [Book.decrease_copy]
            · simp only
              rw [List.getElem?_set_ne hbid]
              rw [hb]
              simp [hbid]
  | opReturn mid i =>
    simp only [step, stepCount, LibState.return_book]
    cases hm : alookup mid s.members with
    | none =>
      simp only [hm]
      rw [hb]
      exact some_book_zero b
    | some m =>
      cases hj : popIndex m.loans.length i with
      | none =>
        simp only [hm, hj]
        rw [hb]
        exact some_book_zero b
      | some j =>
        cases hl : m.loans[j]? with
        | none =>
          simp only [hm, hj, hl]
          rw [hb]
          exact some_book_zero b
        | some loan =>
          simp only [hm, hj, hl]
          by_cases hbid : loan.book = bid
          · subst hbid
            rw [getElem?_incBook_self hb]
            simp [Book.increase_copy]
          · rw [getElem?_incBook_ne (fun he => hbid he.symm)]
            rw [hb]
            simp [hbid]
  | opSweep today =>
    simp only [step, stepCount, LibState.auto_return_ebooks]
    rw [sweepMembers_fst_getElem? today s.books s.members bid b hb]
    norm_num
  | opAdd isbn title total ty =>
    simp only [step, stepCount, LibState.add_book]
    rw [List.getElem?_append_left (getElem?_some_lt hb)]
    rw [hb]
    exact some_book_zero b
  | opRemove isbn =>
    simp only [step, stepCount, LibState.remove_book]
    rw [hb]
    exact some_book_zero b

/-- A run's effect on a book object's `available` is exactly
`- N + M` for its accumulated counters; all other fields are untouched. -/
theorem runOps_books_count (bid : Nat) (ops : List Op) (s : LibState) (b : Book)
    (hb : s.books[bid]? = some b) :
    (runOps ops s).books[bid]? =
      some { b with available := b.available
        - ((runCount bid ops s).1 : Int) + ((runCount bid ops s).2 : Int) } := by
  induction ops generalizing s b with
  | nil =>
    simp only [runOps, runCount]
    rw [hb]
    exact some_book_zero b
  | cons op ops ih =>
    have h1 := step_books op s bid b hb
    have h2 := ih (step op s) _ h1
    show (runOps ops (step op s)).books[bid]? = _
    rw [h2]
    simp only [runCount]
    congr 2
    push_cast
    ring

/-! ### Claim theorems -/

/-- C1: `Member.borrow` is a three-way case split. With the member's count
within the C2 invariant bound, exactly one case applies: at `MAX_BORROW`
the borrow fails with the limit message and the state is unchanged;
otherwise with no available copies it fails with the availability message
and the state is unchanged; otherwise it appends the new loan (due date per
the entry's variant) at the end of the member's sequence, decrements the
entry's `available` by exactly 1, and changes nothing else. -/
theorem borrow_trichotomy (s : LibState) (mid : String) (bid : Nat) (today : Int)
    (m : Member) (b : Book)
    (hm : alookup mid s.members = some m) (hb : s.books[bid]? = some b)
    (hinv : m.loans.length ≤ MAX_BORROW) :
    (m.loans.length = MAX_BORROW →
      s.borrow mid bid today = some (.limitExceeded, s)) ∧
    (m.loans.length < MAX_BORROW → b.available ≤ 0 →
      s.borrow mid bid today = some (.noCopies, s)) ∧
    (m.loans.length < MAX_BORROW → 0 < b.available →
      ∃ s', s.borrow mid bid today = some (.ok, s') ∧
        alookup mid s'.members =
          some { m with loans := m.loans ++ [mkLoan bid b mid today] } ∧
        (∀ mid', mid' ≠ mid → alookup mid' s'.members = alookup mid' s.members) ∧
        s'.books[bid]? = some { b with available := b.available - 1 } ∧
        (∀ bid', bid' ≠ bid → s'.books[bid']? = s.books[bid']?) ∧
        s'.inventory = s.inventory ∧
        (mkLoan bid b mid today).due_date = today + loanDays b.type) := by
  have hlt : bid < s.books.length := getElem?_some_lt hb
  refine ⟨?_, ?_, ?_⟩
  · intro hlen
    unfold LibState.borrow
    rw [hm, hb]
    simp only
    rw [if_pos (by omega)]
  · intro hlen hav
    unfold LibState.borrow
    rw [hm, hb]
    simp only
    rw [if_neg (by omega), if_pos hav]
  · intro hlen hav
    refine ⟨{ s with
        books := s.books.set bid b.decrease_copy
        members := dictInsert mid
          { m with loans := m.loans ++ [mkLoan bid b mid today] } s.members },
      ?_, ?_, ?_, ?_, ?_, rfl, rfl⟩
    · unfold LibState.borrow
      rw [hm, hb]
      simp only
      rw [if_neg (by omega), if_neg (by omega)]
    · exact alookup_dictInsert_self _ _ _
    · intro mid' hne
      exact alookup_dictInsert_ne hne _ _
    · show (s.books.set bid b.decrease_copy)[bid]? = _
      rw [List.getElem?_set_eq_of_lt _ hlt]
      rfl
    · intro bid' hne
      show (s.books.set bid b.decrease_copy)[bid']? = _
      exact List.getElem?_set_ne (fun he => hne he.symm)

/-- C1 witness: in the seeded store, Alice can borrow book "111". -/
theorem borrow_trichotomy_witness :
    ∃ s', initState.borrow "alice" 0 100 = some (BorrowResult.ok, s') := by
  obtain ⟨s', h1, -⟩ :=
    (borrow_trichotomy initState "alice" 0 100
      { user_id := "alice", name := "Alice", loans := [] }
      (mkBook "111" "Python 101" 3 .physical)
      (by decide) (by decide) (by decide)).2.2 (by decide) (by norm_num [mkBook])
  exact ⟨s', h1⟩

/-- C2: in every state reachable from the seeded store by front-end
actions, no member ever holds more than `MAX_BORROW = 5` loans; and a
borrow attempted by a member already at the limit returns the
limit-exceeded message with the state unchanged. -/
theorem borrow_limit_invariant :
    (∀ ops : List Op, ∀ p ∈ (runOps ops initState).members,
      p.2.loans.length ≤ MAX_BORROW) ∧
    (∀ (s : LibState) (mid : String) (bid : Nat) (today : Int)
      (m : Member) (b : Book),
      alookup mid s.members = some m → s.books[bid]? = some b →
      m.loans.length = MAX_BORROW →
      s.borrow mid bid today = some (.limitExceeded, s)) := by
  constructor
  · intro ops p hp
    exact loanInv_runOps ops initState loanInv_initState p hp
  · intro s mid bid today m b hm hb hlen
    unfold LibState.borrow
    rw [hm, hb]
    simp only
    rw [if_pos (by omega)]

/-- C2 witness: Bob holds at most 5 loans after a seeded borrow, and a
member with exactly 5 active loans gets the limit message with no change. -/
theorem borrow_limit_invariant_witness :
    (("bob", ({ user_id := "bob", name := "Bob", loans := [] } : Member)).2.loans.length
      ≤ MAX_BORROW) ∧
    (LibState.borrow
      { books := [mkBook "111" "Python 101" 9 BookType.physical]
        inventory := [("111", 0)]
        members := [("alice", { user_id := "alice", name := "Alice", loans :=
          [mkLoan 0 (mkBook "111" "Python 101" 9 BookType.physical) "alice" 0,
           mkLoan 0 (mkBook "111" "Python 101" 9 BookType.physical) "alice" 1,
           mkLoan 0 (mkBook "111" "Python 101" 9 BookType.physical) "alice" 2,
           mkLoan 0 (mkBook "111" "Python 101" 9 BookType.physical) "alice" 3,
           mkLoan 0 (mkBook "111" "Python 101" 9 BookType.physical) "alice" 4] })] }
      "alice" 0 9 =
      some (BorrowResult.limitExceeded,
        { books := [mkBook "111" "Python 101" 9 BookType.physical]
          inventory := [("111", 0)]
          members := [("alice", { user_id := "alice", name := "Alice", loans :=
            [mkLoan 0 (mkBook "111" "Python 101" 9 BookType.physical) "alice" 0,
             mkLoan 0 (mkBook "111" "Python 101" 9 BookType.physical) "alice" 1,
             mkLoan 0 (mkBook "111" "Python 101" 9 BookType.physical) "alice" 2,
             mkLoan 0 (mkBook "111" "Python 101" 9 BookType.physical) "alice" 3,
             mkLoan 0 (mkBook "111" "Python 101" 9 BookType.physical) "alice" 4] })] })) := by
  constructor
  · exact borrow_limit_invariant.1 [] _ (by decide)
  · exact borrow_limit_invariant.2 _ "alice" 0 9
      { user_id := "alice", name := "Alice", loans :=
        [mkLoan 0 (mkBook "111" "Python 101" 9 BookType.physical) "alice" 0,
         mkLoan 0 (mkBook "111" "Python 101" 9 BookType.physical) "alice" 1,
         mkLoan 0 (mkBook "111" "Python 101" 9 BookType.physical) "alice" 2,
         mkLoan 0 (mkBook "111" "Python 101" 9 BookType.physical) "alice" 3,
         mkLoan 0 (mkBook "111" "Python 101" 9 BookType.physical) "alice" 4] }
      (mkBook "111" "Python 101" 9 BookType.physical) (by decide) (by decide) (by decide)

/-- C3: one sweep at a given date replaces every member's loan sequence by
the subsequence (order preserved) of loans that are not both an e-book
loan and past due, and adds to each book object's `available` exactly the
number of loans dropped on it; the catalog mapping is untouched. -/
theorem sweep_spec (s : LibState) (today : Int) :
    ((s.auto_return_ebooks today).members =
      s.members.map (fun p => (p.1,
        ({ p.2 with loans := p.2.loans.filter (fun l => !expired s.books today l) } : Member)))) ∧
    (∀ (bid : Nat) (b : Book), s.books[bid]? = some b →
      (s.auto_return_ebooks today).books[bid]? =
        some { b with available := b.available + (memsExpCnt s.books today bid s.members : Int) }) ∧
    (s.auto_return_ebooks today).inventory = s.inventory := by
  refine ⟨?_, ?_, rfl⟩
  · exact sweepMembers_snd today s.books s.members
  · intro bid b hb
    exact sweepMembers_fst_getElem? today s.books s.members bid b hb

/-- C3 witness: after Alice borrows e-book "222" on day 0, the sweep on
day 15 restores its `available` from 4 to 5. -/
theorem sweep_spec_witness :
    ((runOps [Op.opBorrow "alice" "222" 0] initState).auto_return_ebooks 15).books[1]? =
      some { isbn := "222", title := "Streamlit in Action", total := 5,
             available := 5, type := BookType.ebook } := by
  have h := (sweep_spec (runOps [Op.opBorrow "alice" "222" 0] initState) 15).2.1 1
    { isbn := "222", title := "Streamlit in Action", total := 5,
      available := 4, type := BookType.ebook } (by decide)
  rw [h]
  decide

/-- C4: `Member.return_book` with an index outside Python's accepted range
for the current sequence returns the invalid-index message and leaves the
state unchanged; in range (the position resolved as Python `list.pop`
does) it removes exactly the loan at that position, shifting later loans
down, increments that loan's book's `available` by 1, and changes nothing
else. -/
theorem return_book_spec (s : LibState) (mid : String) (i : Int) (m : Member)
    (hm : alookup mid s.members = some m) :
    (((m.loans.length : Int) ≤ i ∨ i < -(m.loans.length : Int)) →
      s.return_book mid i = some (.invalidIndex, s)) ∧
    (i < (m.loans.length : Int) ∧ -(m.loans.length : Int) ≤ i →
      ∃ j, popIndex m.loans.length i = some j ∧
        (0 ≤ i → j = i.toNat) ∧
        (i < 0 → j = ((m.loans.length : Int) + i).toNat)) ∧
    (∀ j, popIndex m.loans.length i = some j →
      ∀ loan, m.loans[j]? = some loan →
      ∃ s', s.return_book mid i = some (.ok, s') ∧
        alookup mid s'.members = some { m with loans := m.loans.eraseIdx j } ∧
        (∀ mid', mid' ≠ mid → alookup mid' s'.members = alookup mid' s.members) ∧
        (∀ b, s.books[loan.book]? = some b →
          s'.books[loan.book]? = some { b with available := b.available + 1 }) ∧
        (∀ bid', bid' ≠ loan.book → s'.books[bid']? = s.books[bid']?) ∧
        s'.inventory = s.inventory) := by
  refine ⟨?_, ?_, ?_⟩
  · intro hoob
    unfold LibState.return_book
    rw [hm]
    simp only
    rw [popIndex_oob hoob]
  · rintro ⟨hi1, hi2⟩
    by_cases h0 : 0 ≤ i
    · exact ⟨i.toNat, popIndex_of_nonneg h0 hi1, fun _ => rfl, fun hneg => by omega⟩
    · refine ⟨((m.loans.length : Int) + i).toNat,
        popIndex_of_neg (by omega) hi2, fun hpos => by omega, fun _ => rfl⟩
  · intro j hj loan hl
    refine ⟨{ s with
        books := incBook s.books loan.book
        members := dictInsert mid { m with loans := m.loans.eraseIdx j } s.members },
      ?_, ?_, ?_, ?_, ?_, rfl⟩
    · unfold LibState.return_book
      rw [hm]
      simp only
      rw [hj]
      simp only
      rw [hl]
    · exact alookup_dictInsert_self _ _ _
    · intro mid' hne
      exact alookup_dictInsert_ne hne _ _
    · intro b hb
      show (incBook s.books loan.book)[loan.book]? = _
      rw [getElem?_incBook_self hb]
      rfl
    · intro bid' hne
      show (incBook s.books loan.book)[bid']? = _
      exact getElem?_incBook_ne hne

/-- C4 witness: with 2 active loans, `return_book 10` is rejected without
any change, and `return_book 0` removes the first loan. -/
theorem return_book_spec_witness :
    ((runOps [Op.opBorrow "alice" "111" 0, Op.opBorrow "alice" "111" 1] initState).return_book
        "alice" 10 =
      some (ReturnResult.invalidIndex,
        runOps [Op.opBorrow "alice" "111" 0, Op.opBorrow "alice" "111" 1] initState)) ∧
    (∃ s', (runOps [Op.opBorrow "alice" "111" 0, Op.opBorrow "alice" "111" 1] initState).return_book
        "alice" 0 = some (ReturnResult.ok, s')) := by
  constructor
  · exact (return_book_spec
      (runOps [Op.opBorrow "alice" "111" 0, Op.opBorrow "alice" "111" 1] initState) "alice" 10
      { user_id := "alice", name := "Alice", loans :=
        [mkLoan 0 (mkBook "111" "Python 101" 3 BookType.physical) "alice" 0,
         mkLoan 0 (mkBook "111" "Python 101" 3 BookType.physical) "alice" 1] }
      (by decide)).1 (by norm_num)
  · obtain ⟨s', h1, -⟩ := (return_book_spec
      (runOps [Op.opBorrow "alice" "111" 0, Op.opBorrow "alice" "111" 1] initState) "alice" 0
      { user_id := "alice", name := "Alice", loans :=
        [mkLoan 0 (mkBook "111" "Python 101" 3 BookType.physical) "alice" 0,
         mkLoan 0 (mkBook "111" "Python 101" 3 BookType.physical) "alice" 1] }
      (by decide)).2.2 0 (by decide)
      (mkLoan 0 (mkBook "111" "Python 101" 3 BookType.physical) "alice" 0) (by decide)
    exact ⟨s', h1⟩

/-- C5: a successful borrow on date `D` appends a loan whose `borrow_date`
is `D` and whose `due_date` is `D + 7` for a Physical entry and `D + 14`
for an Ebook entry; and no operation ever modifies an existing loan — the
loans after any action are loans that already existed or the single loan
the action's borrow created. -/
theorem due_date_law :
    (∀ (s : LibState) (mid : String) (bid : Nat) (today : Int)
      (m : Member) (b : Book) (s' : LibState),
      alookup mid s.members = some m → s.books[bid]? = some b →
      s.borrow mid bid today = some (.ok, s') →
      alookup mid s'.members =
        some { m with loans := m.loans ++ [mkLoan bid b mid today] } ∧
      (mkLoan bid b mid today).borrow_date = today ∧
      (b.type = .physical → (mkLoan bid b mid today).due_date = today + 7) ∧
      (b.type = .ebook → (mkLoan bid b mid today).due_date = today + 14)) ∧
    (∀ (op : Op) (s : LibState), ∀ p' ∈ (step op s).members, ∀ l ∈ p'.2.loans,
      (∃ p ∈ s.members, l ∈ p.2.loans) ∨
      (∃ mid isbn today bid b m, op = .opBorrow mid isbn today ∧
        alookup isbn s.inventory = some bid ∧ s.books[bid]? = some b ∧
        alookup mid s.members = some m ∧ l = mkLoan bid b mid today)) := by
  constructor
  · intro s mid bid today m b s' hm hb hbr
    unfold LibState.borrow at hbr
    rw [hm, hb] at hbr
    simp only at hbr
    split_ifs at hbr with h1 h2
    · simp at hbr
    · simp at hbr
    · simp only [Option.some.injEq, Prod.mk.injEq, true_and] at hbr
      obtain ⟨-, rfl⟩ := hbr
      refine ⟨alookup_dictInsert_self _ _ _, rfl, ?_, ?_⟩
      · intro hty
        simp [mkLoan, loanDays, hty]
      · intro hty
        simp [mkLoan, loanDays, hty]
  · intro op s p' hp' l hl
    cases op with
    | opBorrow mid isbn today =>
      simp only [step] at hp'
      cases hi : alookup isbn s.inventory with
      | none =>
        simp only [hi] at hp'
        exact Or.inl ⟨p', hp', hl⟩
      | some bid0 =>
        simp only [hi] at hp'
        cases hbr : s.borrow mid bid0 today with
        | none =>
          simp only [hbr] at hp'
          exact Or.inl ⟨p', hp', hl⟩
        | some rs =>
          simp only [hbr] at hp'
          obtain ⟨r, s'⟩ := rs
          rcases borrow_result hbr with ⟨-, rfl⟩ | ⟨m, b, hm, hb, -, -, -, rfl⟩
          · exact Or.inl ⟨p', hp', hl⟩
          · simp only at hp'
            rcases mem_dictInsert hp' with rfl | hp''
            · simp only [List.mem_append, List.mem_singleton] at hl
              rcases hl with hl | hl
              · exact Or.inl ⟨(mid, m), alookup_mem hm, hl⟩
              · exact Or.inr ⟨mid, isbn, today, bid0, b, m, rfl, hi, hb, hm, hl⟩
            · exact Or.inl ⟨p', hp'', hl⟩
    | opReturn mid i =>
      simp only [step] at hp'
      cases hbr : s.return_book mid i with
      | none =>
        simp only [hbr] at hp'
        exact Or.inl ⟨p', hp', hl⟩
      | some rs =>
        simp only [hbr] at hp'
        obtain ⟨r, s'⟩ := rs
        rcases return_result hbr with ⟨-, rfl⟩ | ⟨m, j, loan, hm, hj, hjl, -, rfl⟩
        · exact Or.inl ⟨p', hp', hl⟩
        · simp only at hp'
          rcases mem_dictInsert hp' with rfl | hp''
          · exact Or.inl ⟨(mid, m), alookup_mem hm, mem_eraseIdx hl⟩
          · exact Or.inl ⟨p', hp'', hl⟩
    | opSweep today =>
      simp only [step, LibState.auto_return_ebooks] at hp'
      rw [sweepMembers_snd] at hp'
      rcases List.mem_map.1 hp' with ⟨q, hq, rfl⟩
      simp only at hl
      exact Or.inl ⟨q, hq, List.mem_of_mem_filter hl⟩
    | opAdd isbn title total ty =>
      exact Or.inl ⟨p', hp', hl⟩
    | opRemove isbn =>
      exact Or.inl ⟨p', hp', hl⟩

/-- C5 witness: borrowing Physical "111" on day 100 yields due date 107,
and after a borrow action every loan in the store is the created one or
pre-existing. -/
theorem due_date_law_witness :
    ((mkLoan 0 (mkBook "111" "Python 101" 3 BookType.physical) "alice" 100).due_date
      = 100 + 7) ∧
    (∀ l ∈ ({ user_id := "alice"
              name := "Alice"
              loans := [mkLoan 0 (mkBook "111" "Python 101" 3 BookType.physical) "alice" 100] } : Member).loans,
      (∃ p ∈ initState.members, l ∈ p.2.loans) ∨
      (∃ mid isbn today bid b m,
        Op.opBorrow "alice" "111" (100:Int) = Op.opBorrow mid isbn today ∧
        alookup isbn initState.inventory = some bid ∧ initState.books[bid]? = some b ∧
        alookup mid initState.members = some m ∧ l = mkLoan bid b mid today)) := by
  constructor
  · exact (due_date_law.1 initState "alice" 0 100
      { user_id := "alice", name := "Alice", loans := [] }
      (mkBook "111" "Python 101" 3 BookType.physical)
      { books := [{ isbn := "111", title := "Python 101", total := 3, available := 2, type := BookType.physical },
                  mkBook "222" "Streamlit in Action" 5 BookType.ebook]
        inventory := [("111", 0), ("222", 1)]
        members := [("alice",
            { user_id := "alice"
              name := "Alice"
              loans := [mkLoan 0 (mkBook "111" "Python 101" 3 BookType.physical) "alice" 100] }),
          ("bob", { user_id := "bob", name := "Bob", loans := [] })] }
      (by decide) (by decide) (by decide)).2.2.1 rfl
  · intro l hl
    exact due_date_law.2 (Op.opBorrow "alice" "111" 100) initState
      ("alice",
        { user_id := "alice"
          name := "Alice"
          loans := [mkLoan 0 (mkBook "111" "Python 101" 3 BookType.physical) "alice" 100] })
      (by decide) l hl

/-- C6: starting from an entry in its creation state
(`available = total`), any run of actions whose counted successful borrows
and returns/sweep-expiries of that entry are `N` and `M` leaves its
`available` at `total - N + M` (and its `total` unchanged); and in every
state reachable from the seeded store by front-end actions respecting the
form's `min_value=1` constraint, `0 ≤ available ≤ total` holds for every
book object. -/
theorem copy_accounting :
    (∀ (s : LibState) (bid : Nat) (b : Book) (ops : List Op),
      s.books[bid]? = some b → b.available = b.total →
      ∃ b', (runOps ops s).books[bid]? = some b' ∧ b'.total = b.total ∧
        b'.available = b.total - ((runCount bid ops s).1 : Int)
          + ((runCount bid ops s).2 : Int)) ∧
    (∀ ops : List Op, (∀ op ∈ ops, opWF op) →
      ∀ (bid : Nat) (b : Book), (runOps ops initState).books[bid]? = some b →
      0 ≤ b.available ∧ b.available ≤ b.total) := by
  constructor
  · intro s bid b ops hb hav
    refine ⟨_, runOps_books_count bid ops s b hb, rfl, ?_⟩
    rw [hav]
  · intro ops hops bid b hb
    have hw := wf_runOps ops initState wf_initState hops
    obtain ⟨-, -, hacc⟩ := hw
    obtain ⟨h1, h2⟩ := hacc bid b hb
    constructor
    · exact h2
    · omega

/-- C6 witness: borrowing "111" once from the seeded store leaves
`available = 3 - 1 + 0`, and the seeded store itself satisfies the
bounds. -/
theorem copy_accounting_witness :
    (∃ b', (runOps [Op.opBorrow "alice" "111" 0] initState).books[0]? = some b' ∧
      b'.total = 3 ∧
      b'.available = 3 - ((runCount 0 [Op.opBorrow "alice" "111" 0] initState).1 : Int)
        + ((runCount 0 [Op.opBorrow "alice" "111" 0] initState).2 : Int)) ∧
    (0 ≤ (mkBook "111" "Python 101" 3 BookType.physical).available ∧
      (mkBook "111" "Python 101" 3 BookType.physical).available
        ≤ (mkBook "111" "Python 101" 3 BookType.physical).total) := by
  constructor
  · exact copy_accounting.1 initState 0 (mkBook "111" "Python 101" 3 BookType.physical)
      [Op.opBorrow "alice" "111" 0] (by decide) (by decide)
  · exact copy_accounting.2 [] (by simp) 0
      (mkBook "111" "Python 101" 3 BookType.physical) (by decide)

/-- C7: a successful borrow immediately followed by returning the new loan
(at position `len(loans)` before the borrow, i.e. the appended position)
restores the whole session store: the member's sequence and the entry's
`available` are exactly as before the borrow. -/
theorem borrow_return_roundtrip (s : LibState) (mid : String) (bid : Nat)
    (today : Int) (m : Member) (b : Book) (s1 : LibState)
    (hm : alookup mid s.members = some m) (hb : s.books[bid]? = some b)
    (hbr : s.borrow mid bid today = some (.ok, s1)) :
    s1.return_book mid (m.loans.length : Int) = some (.ok, s) := by
  unfold LibState.borrow at hbr
  rw [hm, hb] at hbr
  simp only at hbr
  split_ifs at hbr with h1 h2
  · simp at hbr
  · simp at hbr
  · simp only [Option.some.injEq, Prod.mk.injEq, true_and] at hbr
    obtain ⟨-, rfl⟩ := hbr
    have hpop : popIndex (m.loans ++ [mkLoan bid b mid today]).length
        (m.loans.length : Int) = some m.loans.length := by
      rw [List.length_append, List.length_singleton]
      rw [popIndex_of_nonneg (by positivity) (by push_cast; omega)]
      simp
    unfold LibState.return_book
    rw [alookup_dictInsert_self]
    simp only
    rw [hpop]
    simp only
    rw [getElem?_concat]
    simp only
    refine congrArg some (congrArg (Prod.mk ReturnResult.ok) ?_)
    refine LibState.ext ?_ rfl ?_
    · show incBook (s.books.set bid b.decrease_copy) (mkLoan bid b mid today).book
        = s.books
      have hlt : bid < s.books.length := getElem?_some_lt hb
      have hset : (s.books.set bid b.decrease_copy)[bid]? = some b.decrease_copy :=
        List.getElem?_set_eq_of_lt _ hlt
      show incBook (s.books.set bid b.decrease_copy) bid = s.books
      unfold incBook
      rw [hset]
      simp only
      rw [List.set_set]
      have hdi : b.decrease_copy.increase_copy = b := by
        simp [Book.decrease_copy, Book.increase_copy]
      rw [hdi]
      exact set_getElem?_same hb
    · show dictInsert mid _ (dictInsert mid _ s.members) = s.members
      rw [eraseIdx_concat]
      rw [dictInsert_dictInsert]
      exact dictInsert_eq_self hm

/-- C7 witness: Alice borrows "111" from the seeded store and returns it
at position 0, restoring the seeded store. -/
theorem borrow_return_roundtrip_witness :
    LibState.return_book
      { books := [{ isbn := "111", title := "Python 101", total := 3, available := 2, type := BookType.physical },
                  mkBook "222" "Streamlit in Action" 5 BookType.ebook]
        inventory := [("111", 0), ("222", 1)]
        members := [("alice",
            { user_id := "alice"
              name := "Alice"
              loans := [mkLoan 0 (mkBook "111" "Python 101" 3 BookType.physical) "alice" 100] }),
          ("bob", { user_id := "bob", name := "Bob", loans := [] })] }
      "alice" 0 = some (ReturnResult.ok, initState) := by
  exact borrow_return_roundtrip initState "alice" 0 100
    { user_id := "alice", name := "Alice", loans := [] }
    (mkBook "111" "Python 101" 3 BookType.physical) _
    (by decide) (by decide) (by decide)

theorem expCnt_filter_zero (books1 books : List Book) (today : Int) (bid : Nat)
    (hstab : ∀ l, expired books1 today l = expired books today l) (ls : List Loan) :
    expCnt books1 today bid (ls.filter (fun l => !expired books today l)) = 0 := by
  unfold expCnt
  rw [List.length_eq_zero, List.filter_filter]
  apply List.filter_eq_nil_iff.2
  intro l hl
  cases h : expired books today l <;> simp [hstab l, h]

/-- C8: the e-book auto-return sweep is idempotent: with no intervening
actions, sweeping twice at the same date produces exactly the state of one
sweep (all loan sequences, all book objects, the catalog mapping). -/
theorem auto_return_ebooks_idem (s : LibState) (today : Int) :
    (s.auto_return_ebooks today).auto_return_ebooks today
      = s.auto_return_ebooks today := by
  have hmem1 : (s.auto_return_ebooks today).members =
      s.members.map (fun p => (p.1,
        { p.2 with loans := p.2.loans.filter (fun l => !expired s.books today l) })) :=
    sweepMembers_snd today s.books s.members
  have hstab : ∀ l, expired (s.auto_return_ebooks today).books today l
      = expired s.books today l := fun l =>
    expired_sweepMembers_fst today s.books s.members l
  refine LibState.ext ?_ rfl ?_
  · show (sweepMembers today (s.auto_return_ebooks today).books
      (s.auto_return_ebooks today).members).1 = (s.auto_return_ebooks today).books
    apply List.ext_getElem?
    intro bid
    cases hb : (s.auto_return_ebooks today).books[bid]? with
    | none =>
      exact sweepMembers_fst_getElem?_none today _ _ bid hb
    | some b1 =>
      have hcnt : memsExpCnt (s.auto_return_ebooks today).books today bid
          (s.auto_return_ebooks today).members = 0 := by
        unfold memsExpCnt
        rw [hmem1, List.map_map]
        apply List.sum_eq_zero
        intro x hx
        rcases List.mem_map.1 hx with ⟨p, -, rfl⟩
        exact expCnt_filter_zero _ _ today bid hstab p.2.loans
      have e1 := sweepMembers_fst_getElem? today (s.auto_return_ebooks today).books
        (s.auto_return_ebooks today).members bid b1 hb
      rw [hcnt] at e1
      have e2 : some { b1 with available := b1.available + (((0:Nat)):Int) } = some b1 := by
        norm_num
      exact e1.trans e2
  · show (sweepMembers today (s.auto_return_ebooks today).books
      (s.auto_return_ebooks today).members).2 = (s.auto_return_ebooks today).members
    rw [sweepMembers_snd, hmem1, List.map_map]
    apply List.map_congr_left
    intro p hp
    simp only [Function.comp]
    have hff : List.filter (fun l => !expired (s.auto_return_ebooks today).books today l)
        (List.filter (fun l => !expired s.books today l) p.2.loans)
        = List.filter (fun l => !expired s.books today l) p.2.loans := by
      rw [List.filter_congr (fun l _ => by rw [hstab l])]
      exact List.filter_eq_self.2 (fun a ha => (List.mem_filter.1 ha).2)
    rw [hff]


/-- The book record a catalog key currently denotes: follow the inventory
mapping to the heap. -/
def catalogBook (s : LibState) (isbn : String) : Option Book :=
  (alookup isbn s.inventory).bind (fun bid => s.books[bid]?)

/-- C9: `add_book` keys the new entry by its isbn, silently and fully
replacing what that key denoted before, while every other key still
denotes the same record; `remove_book` deletes the key when present, is a
no-op (no error, identical store) when absent, and never touches other
keys, the heap or the members. -/
theorem catalog_add_remove (s : LibState) (isbn title : String) (total : Int)
    (ty : BookType) (hv : ∀ p ∈ s.inventory, p.2 < s.books.length) :
    (catalogBook (s.add_book isbn title total ty) isbn
      = some (mkBook isbn title total ty)) ∧
    (∀ k, k ≠ isbn →
      alookup k (s.add_book isbn title total ty).inventory = alookup k s.inventory) ∧
    (∀ k, k ≠ isbn →
      catalogBook (s.add_book isbn title total ty) k = catalogBook s k) ∧
    ((s.add_book isbn title total ty).members = s.members) ∧
    (alookup isbn (s.remove_book isbn).inventory = none) ∧
    (∀ k, k ≠ isbn →
      alookup k (s.remove_book isbn).inventory = alookup k s.inventory) ∧
    ((s.remove_book isbn).books = s.books ∧ (s.remove_book isbn).members = s.members) ∧
    (alookup isbn s.inventory = none → s.remove_book isbn = s) := by
  refine ⟨?_, ?_, ?_, rfl, ?_, ?_, ⟨rfl, rfl⟩, ?_⟩
  · unfold catalogBook
    show (alookup isbn (dictInsert isbn s.books.length s.inventory)).bind _ = _
    rw [alookup_dictInsert_self]
    show (s.books ++ [mkBook isbn title total ty])[s.books.length]? = _
    exact getElem?_concat _ _
  · intro k hk
    exact alookup_dictInsert_ne hk _ _
  · intro k hk
    unfold catalogBook
    show (alookup k (dictInsert isbn s.books.length s.inventory)).bind _
      = (alookup k s.inventory).bind _
    rw [alookup_dictInsert_ne hk]
    cases hkk : alookup k s.inventory with
    | none => rfl
    | some bid =>
      show (s.books ++ [mkBook isbn title total ty])[bid]? = s.books[bid]?
      exact List.getElem?_append_left (hv _ (alookup_mem hkk))
  · exact alookup_dictRemove_self isbn s.inventory
  · intro k hk
    exact alookup_dictRemove_ne hk s.inventory
  · intro habs
    refine LibState.ext rfl ?_ rfl
    exact dictRemove_eq_self habs

/-- C9 witness: adding a second "111" to the seeded store replaces the
catalog record under "111" while "222" is untouched; removing a key absent
from the store changes nothing. -/
theorem catalog_add_remove_witness :
    (catalogBook (initState.add_book "111" "Python Advanced" 7 BookType.ebook) "111"
      = some (mkBook "111" "Python Advanced" 7 BookType.ebook)) ∧
    (catalogBook (initState.add_book "111" "Python Advanced" 7 BookType.ebook) "222"
      = catalogBook initState "222") ∧
    (initState.remove_book "999" = initState) := by
  have h := catalog_add_remove initState "111" "Python Advanced" 7 BookType.ebook
    (by decide)
  exact ⟨h.1, h.2.2.1 "222" (by decide), (catalog_add_remove initState "999" ""
    0 BookType.physical (by decide)).2.2.2.2.2.2.2 (by decide)⟩

/-- C10: a negative index `i` with `-k ≤ i ≤ -1` (where `k ≥ 1` is the
number of active loans) is accepted by `return_book`, as Python's
`list.pop` is: the call succeeds, removing the loan at position `k + i`
(so `-1` removes the most recently borrowed loan) and incrementing that
loan's book's `available` by 1. -/
theorem return_book_negative_index (s : LibState) (mid : String) (i : Int)
    (m : Member) (hm : alookup mid s.members = some m)
    (hk : 1 ≤ m.loans.length)
    (h1 : -(m.loans.length : Int) ≤ i) (h2 : i ≤ -1) :
    ∃ j loan s', j = ((m.loans.length : Int) + i).toNat ∧
      m.loans[j]? = some loan ∧
      s.return_book mid i = some (.ok, s') ∧
      alookup mid s'.members = some { m with loans := m.loans.eraseIdx j } ∧
      (∀ b, s.books[loan.book]? = some b →
        s'.books[loan.book]? = some { b with available := b.available + 1 }) := by
  have hjlt : ((m.loans.length : Int) + i).toNat < m.loans.length := by omega
  obtain ⟨loan, hl⟩ : ∃ loan, m.loans[((m.loans.length : Int) + i).toNat]? = some loan := by
    rw [List.getElem?_eq_getElem hjlt]
    exact ⟨_, rfl⟩
  refine ⟨_, loan, { s with
      books := incBook s.books loan.book
      members := dictInsert mid
        { m with loans := m.loans.eraseIdx (((m.loans.length : Int) + i).toNat) } s.members },
    rfl, hl, ?_, ?_, ?_⟩
  · unfold LibState.return_book
    rw [hm]
    simp only
    rw [popIndex_of_neg (by omega) h1]
    simp only
    rw [hl]
  · exact alookup_dictInsert_self _ _ _
  · intro b hb
    show (incBook s.books loan.book)[loan.book]? = _
    rw [getElem?_incBook_self hb]
    rfl

/-- C10 witness: with two active loans, `return_book (-1)` removes the
second (most recent) loan and bumps its book. -/
theorem return_book_negative_index_witness :
    ∃ j loan s', j = (((2:Nat) : Int) + (-1)).toNat ∧
      ([mkLoan 0 (mkBook "111" "T" 3 BookType.physical) "alice" 0,
        mkLoan 0 (mkBook "111" "T" 3 BookType.physical) "alice" 1])[j]? = some loan ∧
      LibState.return_book
        { books := [mkBook "111" "T" 3 BookType.physical]
          inventory := [("111", 0)]
          members := [("alice",
            { user_id := "alice"
              name := "Alice"
              loans := [mkLoan 0 (mkBook "111" "T" 3 BookType.physical) "alice" 0,
                        mkLoan 0 (mkBook "111" "T" 3 BookType.physical) "alice" 1] })] }
        "alice" (-1) = some (ReturnResult.ok, s') ∧
      alookup "alice" s'.members = some
        { user_id := "alice"
          name := "Alice"
          loans := ([mkLoan 0 (mkBook "111" "T" 3 BookType.physical) "alice" 0,
                     mkLoan 0 (mkBook "111" "T" 3 BookType.physical) "alice" 1]).eraseIdx j } ∧
      (∀ b, ([mkBook "111" "T" 3 BookType.physical] : List Book)[loan.book]? = some b →
        s'.books[loan.book]? = some { b with available := b.available + 1 }) := by
  exact return_book_negative_index
    { books := [mkBook "111" "T" 3 BookType.physical]
      inventory := [("111", 0)]
      members := [("alice",
        { user_id := "alice"
          name := "Alice"
          loans := [mkLoan 0 (mkBook "111" "T" 3 BookType.physical) "alice" 0,
                    mkLoan 0 (mkBook "111" "T" 3 BookType.physical) "alice" 1] })] }
    "alice" (-1)
    { user_id := "alice"
      name := "Alice"
      loans := [mkLoan 0 (mkBook "111" "T" 3 BookType.physical) "alice" 0,
                mkLoan 0 (mkBook "111" "T" 3 BookType.physical) "alice" 1] }
    (by decide) (by decide) (by norm_num) (by norm_num)
